import Mathlib

/-!
Verification development for the zeroclaw FTMS (File/Text Management System)
pipeline: content extraction (`src/ftms/extract.rs`), media description
(`src/ftms/describe.rs`), and the SQLite-backed file index with its FTS5
shadow table (`src/ftms/index.rs`).

Modelling conventions:
* Rust byte slices `&[u8]` are `List Nat` (each byte < 256 where it matters).
* Rust `String`/`&str` content is `List Char` (a sequence of Unicode scalar
  values); `str::len` is the UTF-8 byte length, computed via `Char.utf8Size`.
* A Rust function that can panic is modelled with an outer `Option`:
  `none` is a panic, `some v` a normal return.
* `anyhow::Result` layers that are always `Ok` on every path of the modelled
  configuration are noted in the individual doc comments.
-/

namespace Ftms

/-! ### UTF-8 byte-length, trimming and byte slicing (Rust `str` primitives) -/

/-- Byte length of a Rust string (`str::len`): sum of UTF-8 sizes of its
Unicode scalar values. -/
def utf8ByteLen : List Char → Nat
  | [] => 0
  | c :: cs => c.utf8Size + utf8ByteLen cs

/-- Rust `char::is_whitespace`: membership in the Unicode `White_Space` set. -/
def isRustWhitespace (c : Char) : Bool :=
  let n := c.toNat
  decide ((9 ≤ n ∧ n ≤ 13) ∨ n = 32 ∨ n = 0x85 ∨ n = 0xA0 ∨ n = 0x1680 ∨
    (0x2000 ≤ n ∧ n ≤ 0x200A) ∨ n = 0x2028 ∨ n = 0x2029 ∨ n = 0x202F ∨
    n = 0x205F ∨ n = 0x3000)

/-- Rust `str::trim`: drop whitespace from both ends. -/
def rustTrim (t : List Char) : List Char :=
  ((t.dropWhile isRustWhitespace).reverse.dropWhile isRustWhitespace).reverse

/-- Rust byte slicing `&text[..k]`: `some` prefix when byte index `k` is a
character boundary not past the end, `none` (panic) otherwise. -/
def byteSlice : Nat → List Char → Option (List Char)
  | 0, _ => some []
  | _ + 1, [] => none
  | k + 1, c :: cs =>
    if k + 1 < c.utf8Size then none
    else (byteSlice (k + 1 - c.utf8Size) cs).map (fun s => c :: s)

/-- The longest prefix of a string whose UTF-8 byte length is at most `k`
("the first `k` bytes" when `k` is a character boundary). -/
def byteTake : Nat → List Char → List Char
  | _, [] => []
  | k, c :: cs => if c.utf8Size ≤ k then c :: byteTake (k - c.utf8Size) cs else []

/-- Byte index `k` is a character boundary of the string (including the end,
as for Rust `str::is_char_boundary` plus the `k = len` case). -/
def isByteBoundary : Nat → List Char → Bool
  | 0, _ => true
  | _ + 1, [] => false
  | k + 1, c :: cs =>
    if k + 1 < c.utf8Size then false else isByteBoundary (k + 1 - c.utf8Size) cs

/-! ### UTF-8 decoding (Rust `String::from_utf8_lossy` / `str::from_utf8`) -/

/-- U+FFFD REPLACEMENT CHARACTER. -/
def replacementChar : Char := Char.ofNat 0xFFFD

/-- A UTF-8 continuation byte (`0x80..=0xBF`). -/
def isCont (b : Nat) : Bool := 128 ≤ b && b ≤ 191

/-- Valid first continuation byte after a three-byte lead `b`
(`E0 → A0..BF`, `ED → 80..9F`, otherwise any continuation). -/
def cont3ok (b b1 : Nat) : Bool :=
  if b = 224 then 160 ≤ b1 && b1 ≤ 191
  else if b = 237 then 128 ≤ b1 && b1 ≤ 159
  else isCont b1

/-- Valid first continuation byte after a four-byte lead `b`
(`F0 → 90..BF`, `F4 → 80..8F`, otherwise any continuation). -/
def cont4ok (b b1 : Nat) : Bool :=
  if b = 240 then 144 ≤ b1 && b1 ≤ 191
  else if b = 244 then 128 ≤ b1 && b1 ≤ 143
  else isCont b1

/-- Scalar value of a two-byte UTF-8 sequence. -/
def utf8Char2 (b b1 : Nat) : Char := Char.ofNat ((b - 192) * 64 + (b1 - 128))

/-- Scalar value of a three-byte UTF-8 sequence. -/
def utf8Char3 (b b1 b2 : Nat) : Char :=
  Char.ofNat ((b - 224) * 4096 + (b1 - 128) * 64 + (b2 - 128))

/-- Scalar value of a four-byte UTF-8 sequence. -/
def utf8Char4 (b b1 b2 b3 : Nat) : Char :=
  Char.ofNat ((b - 240) * 262144 + (b1 - 128) * 4096 + (b2 - 128) * 64 + (b3 - 128))

/-- Rust `String::from_utf8_lossy`: UTF-8 decoding with each maximal subpart
of an ill-formed subsequence replaced by U+FFFD (and a single U+FFFD for an
incomplete sequence at the end of input). Bytes `≥ 256` cannot occur in a
Rust `&[u8]` and are treated as ill-formed. -/
def utf8Lossy : List Nat → List Char
  | [] => []
  | [b] =>
    if b < 128 then [Char.ofNat b] else [replacementChar]
  | [b, b1] =>
    if b < 128 then Char.ofNat b :: utf8Lossy [b1]
    else if 194 ≤ b && b ≤ 223 then
      if isCont b1 then [utf8Char2 b b1] else replacementChar :: utf8Lossy [b1]
    else if 224 ≤ b && b ≤ 239 then
      if cont3ok b b1 then [replacementChar] else replacementChar :: utf8Lossy [b1]
    else if 240 ≤ b && b ≤ 244 then
      if cont4ok b b1 then [replacementChar] else replacementChar :: utf8Lossy [b1]
    else replacementChar :: utf8Lossy [b1]
  | [b, b1, b2] =>
    if b < 128 then Char.ofNat b :: utf8Lossy [b1, b2]
    else if 194 ≤ b && b ≤ 223 then
      if isCont b1 then utf8Char2 b b1 :: utf8Lossy [b2]
      else replacementChar :: utf8Lossy [b1, b2]
    else if 224 ≤ b && b ≤ 239 then
      if cont3ok b b1 && isCont b2 then [utf8Char3 b b1 b2]
      else if cont3ok b b1 then replacementChar :: utf8Lossy [b2]
      else replacementChar :: utf8Lossy [b1, b2]
    else if 240 ≤ b && b ≤ 244 then
      if cont4ok b b1 && isCont b2 then [replacementChar]
      else if cont4ok b b1 then replacementChar :: utf8Lossy [b2]
      else replacementChar :: utf8Lossy [b1, b2]
    else replacementChar :: utf8Lossy [b1, b2]
  | b :: b1 :: b2 :: b3 :: r =>
    if b < 128 then Char.ofNat b :: utf8Lossy (b1 :: b2 :: b3 :: r)
    else if 194 ≤ b && b ≤ 223 then
      if isCont b1 then utf8Char2 b b1 :: utf8Lossy (b2 :: b3 :: r)
      else replacementChar :: utf8Lossy (b1 :: b2 :: b3 :: r)
    else if 224 ≤ b && b ≤ 239 then
      if cont3ok b b1 && isCont b2 then utf8Char3 b b1 b2 :: utf8Lossy (b3 :: r)
      else if cont3ok b b1 then replacementChar :: utf8Lossy (b2 :: b3 :: r)
      else replacementChar :: utf8Lossy (b1 :: b2 :: b3 :: r)
    else if 240 ≤ b && b ≤ 244 then
      if cont4ok b b1 && isCont b2 && isCont b3 then utf8Char4 b b1 b2 b3 :: utf8Lossy r
      else if cont4ok b b1 && isCont b2 then replacementChar :: utf8Lossy (b3 :: r)
      else if cont4ok b b1 then replacementChar :: utf8Lossy (b2 :: b3 :: r)
      else replacementChar :: utf8Lossy (b1 :: b2 :: b3 :: r)
    else replacementChar :: utf8Lossy (b1 :: b2 :: b3 :: r)
  termination_by l => l.length
  decreasing_by all_goals simp +arith

/-- UTF-8 validity of a byte sequence, exactly the test performed by Rust
`str::from_utf8` (well-formed UTF-8, surrogates and overlong forms rejected). -/
def utf8Valid : List Nat → Bool
  | [] => true
  | b :: rest =>
    if b < 128 then utf8Valid rest
    else if 194 ≤ b && b ≤ 223 then
      match rest with
      | b1 :: r => isCont b1 && utf8Valid r
      | [] => false
    else if 224 ≤ b && b ≤ 239 then
      match rest with
      | b1 :: b2 :: r => cont3ok b b1 && isCont b2 && utf8Valid r
      | _ => false
    else if 240 ≤ b && b ≤ 244 then
      match rest with
      | b1 :: b2 :: b3 :: r => cont4ok b b1 && isCont b2 && isCont b3 && utf8Valid r
      | _ => false
    else false

/-- Rust `std::str::from_utf8(data)` followed by reading the characters of the
resulting `&str`: `some` exactly on valid UTF-8, in which case the characters
agree with the lossy decoding (which inserts no replacements on valid input). -/
def from_utf8 (data : List Nat) : Option (List Char) :=
  if utf8Valid data then some (utf8Lossy data) else none

/-! ### `src/ftms/extract.rs` -/

/-- Maximum text to extract (100KB) to avoid bloating the index
(`MAX_TEXT_LEN` in `extract.rs`). -/
def MAX_TEXT_LEN : Nat := 102400

/-- `truncate_text` from `extract.rs`: `none` result for blank text, otherwise
the text, byte-sliced to `MAX_TEXT_LEN` when longer. The outer `Option` models
a panic of the slice `text[..MAX_TEXT_LEN]` at a non-boundary byte index. -/
def truncate_text (text : List Char) : Option (Option (List Char)) :=
  if rustTrim text = [] then some none
  else if utf8ByteLen text > MAX_TEXT_LEN then
    (byteSlice MAX_TEXT_LEN text).map (fun s => some s)
  else some (some text)

/-- Rust `str::starts_with` with a string pattern: prefix on the character
sequence (equivalently on the UTF-8 bytes). -/
def strStartsWith (pre s : String) : Bool := pre.data.isPrefixOf s.data

/-- The text-like MIME types of the first match arm of `extract_text`. -/
def textMimes : List String :=
  ["text/plain", "text/markdown", "text/csv", "text/html", "text/xml",
   "application/json", "application/xml"]

/-- The placeholder returned by `extract_pdf` when the `rag-pdf` feature is
absent. -/
def pdfPlaceholder : List Char :=
  "[PDF document — enable pdf feature for text extraction]".data

/-- `extract_pdf` from `extract.rs`, in the default configuration (feature
`rag-pdf` disabled): always the fixed placeholder note. -/
def extract_pdf (_data : List Nat) : Option (Option (List Char)) :=
  some (some pdfPlaceholder)

/-- `extract_text` from `extract.rs`. The result's outer `Option` models a
panic (`none`); the `anyhow::Result` layer is `Ok` on every path of the
modelled configuration, so a normal return is `some r` for `Ok(r)`. -/
def extract_text (data : List Nat) (mime_type : String) (_filename : String) :
    Option (Option (List Char)) :=
  if mime_type ∈ textMimes then truncate_text (utf8Lossy data)
  else if mime_type = "application/pdf" then extract_pdf data
  else if strStartsWith "image/" mime_type || strStartsWith "audio/" mime_type ||
      strStartsWith "video/" mime_type then some none
  else
    match from_utf8 data with
    | some text => if !(rustTrim text).isEmpty then truncate_text text else some none
    | none => some none

/-- ASCII lower-casing of one character; models `str::to_lowercase`, which
agrees with this on the ASCII range (no character outside ASCII lower-cases
onto any of the ASCII extension-table keys compared against below, so the
classification below is unaffected by the restriction). -/
def asciiLower (c : Char) : Char :=
  if 'A' ≤ c ∧ c ≤ 'Z' then Char.ofNat (c.toNat + 32) else c

/-- `filename.rsplit('.').next().unwrap_or("")` from `guess_mime_type`: the
text after the final `'.'`; the whole filename when it contains no `'.'`
(`rsplit` always yields at least one segment, so the `unwrap_or` arm is dead). -/
def extAfterLastDot (s : List Char) : List Char :=
  (s.reverse.takeWhile (fun c => c ≠ '.')).reverse

/-- The fixed extension table of `guess_mime_type`. -/
def extToMime (e : String) : String :=
  if e = "txt" then "text/plain"
  else if e = "md" ∨ e = "markdown" then "text/markdown"
  else if e = "csv" then "text/csv"
  else if e = "json" then "application/json"
  else if e = "xml" then "application/xml"
  else if e = "html" ∨ e = "htm" then "text/html"
  else if e = "pdf" then "application/pdf"
  else if e = "png" then "image/png"
  else if e = "jpg" ∨ e = "jpeg" then "image/jpeg"
  else if e = "gif" then "image/gif"
  else if e = "webp" then "image/webp"
  else if e = "bmp" then "image/bmp"
  else if e = "svg" then "image/svg+xml"
  else if e = "mp3" then "audio/mpeg"
  else if e = "wav" then "audio/wav"
  else if e = "ogg" then "audio/ogg"
  else if e = "mp4" then "video/mp4"
  else if e = "webm" then "video/webm"
  else if e = "mov" then "video/quicktime"
  else if e = "zip" then "application/zip"
  else if e = "tar" then "application/x-tar"
  else if e = "gz" then "application/gzip"
  else "application/octet-stream"

/-- `guess_mime_type` from `extract.rs`: classify by lower-cased text after
the final `'.'` of the filename. -/
def guess_mime_type (filename : String) : String :=
  extToMime (String.mk ((extAfterLastDot filename.data).map asciiLower))

/-! ### `src/ftms/describe.rs` -/

/-- The standard base64 alphabet. -/
def b64Alphabet : List Char :=
  "ABCDEFGHIJKLMNOPQRSTUVWXYZabcdefghijklmnopqrstuvwxyz0123456789+/".data

/-- Character for a 6-bit group. -/
def b64Char (i : Nat) : Char := b64Alphabet.getD i 'A'

/-- `base64::engine::general_purpose::STANDARD.encode`: standard base64 with
`'='` padding. -/
def base64Encode : List Nat → List Char
  | b1 :: b2 :: b3 :: rest =>
    b64Char (b1 / 4) :: b64Char ((b1 % 4) * 16 + b2 / 16) ::
      b64Char ((b2 % 16) * 4 + b3 / 64) :: b64Char (b3 % 64) :: base64Encode rest
  | [b1, b2] => [b64Char (b1 / 4), b64Char ((b1 % 4) * 16 + b2 / 16),
      b64Char ((b2 % 16) * 4), '=']
  | [b1] => [b64Char (b1 / 4), b64Char ((b1 % 4) * 16), '=', '=']
  | [] => []

/-- Index of a character in the base64 alphabet. -/
def b64Index (c : Char) : Option Nat := b64Alphabet.indexOf? c

/-- Standard base64 decoding (the claim-side inverse used to state the
round-trip property): processes four characters at a time, handling the two
padded final-block forms. -/
def base64Decode : List Char → Option (List Nat)
  | [] => some []
  | c1 :: c2 :: c3 :: c4 :: rest =>
    match b64Index c1, b64Index c2 with
    | some i1, some i2 =>
      if c3 = '=' ∧ c4 = '=' ∧ rest = [] then
        if i2 % 16 = 0 then some [i1 * 4 + i2 / 16] else none
      else if c4 = '=' ∧ rest = [] then
        match b64Index c3 with
        | some i3 =>
          if i3 % 4 = 0 then some [i1 * 4 + i2 / 16, (i2 % 16) * 16 + i3 / 4] else none
        | none => none
      else
        match b64Index c3, b64Index c4, base64Decode rest with
        | some i3, some i4, some tail =>
          some ((i1 * 4 + i2 / 16) :: ((i2 % 16) * 16 + i3 / 4) :: ((i3 % 4) * 64 + i4) :: tail)
        | _, _, _ => none
    | _, _ => none
  | _ => none

/-- `describe_media` from `describe.rs`. The `anyhow::Result` layer is `Ok` on
every path, so the value models the inner `Option<String>`. -/
def describe_media (data : List Nat) (mime_type filename : String) :
    Option (List Char) :=
  if strStartsWith "image/" mime_type then
    some ("[Uploaded image: ".data ++ filename.data ++ "]\n[IMAGE:data:".data ++
      mime_type.data ++ ";base64,".data ++ base64Encode data ++ "]".data)
  else if strStartsWith "audio/" mime_type then
    some ("[Uploaded audio file: ".data ++ filename.data ++ ", size: ".data ++
      (Nat.repr data.length).data ++ " bytes]".data)
  else if strStartsWith "video/" mime_type then
    some ("[Uploaded video file: ".data ++ filename.data ++ ", size: ".data ++
      (Nat.repr data.length).data ++ " bytes]".data)
  else none

/-! ### `src/ftms/schema.rs` -/

/-- `FileRecord` from `schema.rs`: a stored file record with metadata and
extracted content. `u64` is modelled as `Nat` (see `FileIndex.insert` for the
`i64` bound enforced at the SQL boundary). -/
structure FileRecord where
  id : String
  filename : String
  mime_type : String
  file_path : String
  file_size : Nat
  extracted_text : Option String
  ai_description : Option String
  session_id : Option String
  channel : Option String
  uploaded_at : String
  tags : Option String
deriving DecidableEq, Repr

/-- `FileListResponse` from `schema.rs`: a paginated list response. -/
structure FileListResponse where
  files : List FileRecord
  total : Nat
  offset : Nat
  limit : Nat
deriving DecidableEq, Repr

/-! ### `src/ftms/index.rs`

The SQLite base table `ftms_files` is a list of rows keyed by their implicit
`rowid`; the FTS5 external-content shadow table `ftms_fts` is a list of
entries keyed by the same rowid, holding the four indexed columns. The three
triggers of `init_schema` (`ftms_ai`, `ftms_ad`, `ftms_au`) are modelled as
explicit shadow-table effects fired per affected base row. -/

/-- The four columns indexed by the FTS5 shadow table
(`filename, extracted_text, ai_description, tags`). -/
structure FtsEntry where
  filename : String
  extracted_text : Option String
  ai_description : Option String
  tags : Option String
deriving DecidableEq, Repr

/-- The shadow-table entry for a base row (the `new.*` values named by the
triggers). -/
def entryOf (r : FileRecord) : FtsEntry :=
  ⟨r.filename, r.extracted_text, r.ai_description, r.tags⟩

/-- The database state: base table rows with their rowids, shadow-table
entries with their rowids, and the next fresh rowid. -/
structure IndexState where
  rows : List (Nat × FileRecord)
  fts : List (Nat × FtsEntry)
  nextRowid : Nat
deriving DecidableEq, Repr

/-- The freshly created database (after `init_schema`): both tables empty. -/
def initState : IndexState := ⟨[], [], 1⟩

namespace FileIndex

/-- Trigger `ftms_ai` (`AFTER INSERT`): insert the new row's four indexed
columns into the shadow table under the new rowid. -/
def fireInsertTrigger (rid : Nat) (e : FtsEntry) (fts : List (Nat × FtsEntry)) :
    List (Nat × FtsEntry) :=
  fts ++ [(rid, e)]

/-- Trigger `ftms_ad` (`AFTER DELETE`): the FTS5 `'delete'` command removes
the shadow entry stored under the old rowid. -/
def fireDeleteTrigger (rid : Nat) (fts : List (Nat × FtsEntry)) :
    List (Nat × FtsEntry) :=
  fts.filter (fun e => e.1 != rid)

/-- `FileIndex::insert`: `INSERT INTO ftms_files ...`, which fails on a
primary-key (`id`) violation, and also fails at parameter binding when
`file_size` exceeds `i64::MAX` (rusqlite's `u64` conversion); on success the
`ftms_ai` trigger fires. `none` models the error return (state unchanged). -/
def insert (record : FileRecord) (s : IndexState) : Option IndexState :=
  if s.rows.any (fun p => p.2.id == record.id) || decide (2 ^ 63 ≤ record.file_size) then
    none
  else
    some { rows := s.rows ++ [(s.nextRowid, record)],
           fts := fireInsertTrigger s.nextRowid (entryOf record) s.fts,
           nextRowid := s.nextRowid + 1 }

/-- The row update performed by `UPDATE ftms_files SET extracted_text = ?1,
ai_description = ?2 WHERE id = ?3` on one matching row. -/
def updContent (text description : Option String) (r : FileRecord) : FileRecord :=
  { r with extracted_text := text, ai_description := description }

/-- `FileIndex::update_content`: update `extracted_text`/`ai_description` of
every row whose `id` matches (at most one, `id` being the primary key); the
`ftms_au` trigger fires per affected row, removing the old shadow entry and
inserting the new one. Zero affected rows is a silent no-op, as in the code. -/
def update_content (id : String) (text description : Option String)
    (s : IndexState) : IndexState :=
  let affected := s.rows.filter (fun p => p.2.id == id)
  { rows := s.rows.map (fun p => if p.2.id == id then (p.1, updContent text description p.2) else p),
    fts := affected.foldl
      (fun acc p => fireInsertTrigger p.1 (entryOf (updContent text description p.2))
        (fireDeleteTrigger p.1 acc)) s.fts,
    nextRowid := s.nextRowid }

/-- `DELETE FROM ftms_files WHERE id = ?` (the base-table mutation the
`ftms_ad` trigger guards; the repository wires no public delete method, but
the trigger defines its shadow effect): remove every matching row and fire
the delete trigger per removed row. -/
def delete (id : String) (s : IndexState) : IndexState :=
  let affected := s.rows.filter (fun p => p.2.id == id)
  { rows := s.rows.filter (fun p => p.2.id != id),
    fts := affected.foldl (fun acc p => fireDeleteTrigger p.1 acc) s.fts,
    nextRowid := s.nextRowid }

/-- `FileIndex::get`: point lookup `SELECT ... WHERE id = ?1`; a missing row
(`QueryReturnedNoRows`) is mapped to `Ok(None)`. The `Except` layer models
the `anyhow::Result`, which is an `error` only for SQL-level failures (never
for a missing id). -/
def get (id : String) (s : IndexState) : Except String (Option FileRecord) :=
  Except.ok ((s.rows.find? (fun p => p.2.id == id)).map (fun p => p.2))

/-- One step of SQLite's default `LIKE` matcher: `%` matches any byte
sequence, `_` any single character, and letters compare ASCII-case-
insensitively. `fuel` only bounds the recursion; `pat.length + text.length + 1`
always suffices. -/
def likeAux : Nat → List Char → List Char → Bool
  | 0, _, _ => false
  | _ + 1, [], [] => true
  | fuel + 1, '%' :: ps, t =>
    likeAux fuel ps t ||
      (match t with
       | [] => false
       | _ :: ts => likeAux fuel ('%' :: ps) ts)
  | fuel + 1, '_' :: ps, _ :: ts => likeAux fuel ps ts
  | fuel + 1, p :: ps, c :: ts => (asciiLower p == asciiLower c) && likeAux fuel ps ts
  | _ + 1, _, _ => false

/-- SQLite's default `LIKE` operator (case-insensitive for ASCII only). -/
def sqliteLike (pat text : List Char) : Bool :=
  likeAux (pat.length + text.length + 1) pat text

/-- The row predicate realized by `build_filter`: conjunction of
`session_id = ?` (exact match; never true on a NULL `session_id`) and
`mime_type LIKE ?` with the pattern `format!("{}%", prefix)`. -/
def matchesFilters (sessionFilter mimeFilter : Option String) (r : FileRecord) : Bool :=
  (match sessionFilter with
   | some sid => r.session_id == some sid
   | none => true) &&
  (match mimeFilter with
   | some mp => sqliteLike (mp.data ++ ['%']) r.mime_type.data
   | none => true)

/-- `FileIndex::list`: `SELECT COUNT(*)` over the filtered rows, then the
filtered rows ordered by `uploaded_at DESC` (byte-wise text comparison) with
`LIMIT ? OFFSET ?` applied. Ties in `uploaded_at` are returned in an order
SQLite leaves unspecified; `mergeSort` realizes one such order. -/
def list (offset limit : Nat) (sessionFilter mimeFilter : Option String)
    (s : IndexState) : FileListResponse :=
  let matching := (s.rows.map Prod.snd).filter (matchesFilters sessionFilter mimeFilter)
  let sorted := matching.mergeSort (fun a b => decide (b.uploaded_at ≤ a.uploaded_at))
  { files := (sorted.drop offset).take limit,
    total := matching.length,
    offset := offset,
    limit := limit }

end FileIndex

/-- The base-table mutations whose shadow-index synchronization the triggers
of `init_schema` guarantee. -/
inductive DbOp where
  | ins (record : FileRecord)
  | upd (id : String) (text description : Option String)
  | del (id : String)

/-- Apply one operation; a failed `insert` (duplicate id or oversized
`file_size`) leaves the state unchanged, as the failed SQL statement does. -/
def applyOp (s : IndexState) : DbOp → IndexState
  | .ins record => (FileIndex.insert record s).getD s
  | .upd id text description => FileIndex.update_content id text description s
  | .del id => FileIndex.delete id s

/-- Run a sequence of operations from the freshly initialized database. -/
def runOps (ops : List DbOp) : IndexState :=
  ops.foldl applyOp initState

/-! ### Derived definitions used in specification statements -/

/-- The extensions recognized by the fixed table of `guess_mime_type`. -/
def knownExts : List String :=
  ["txt", "md", "markdown", "csv", "json", "xml", "html", "htm", "pdf", "png",
   "jpg", "jpeg", "gif", "webp", "bmp", "svg", "mp3", "wav", "ogg", "mp4",
   "webm", "mov", "zip", "tar", "gz"]

/-- A concrete record used by several witnesses. -/
def sampleRecord : FileRecord :=
  { id := "id1", filename := "notes.txt", mime_type := "text/plain",
    file_path := "2025/01/01/u1.txt", file_size := 50,
    extracted_text := some "hello world", ai_description := none,
    session_id := some "s1", channel := none,
    uploaded_at := "2025-01-01T00:00:00+00:00", tags := none }

/-- The state after inserting `sampleRecord` into the fresh index. -/
def sampleState : IndexState :=
  ⟨[(1, sampleRecord)], [(1, entryOf sampleRecord)], 2⟩

/-- The byte sequence of `n` euro signs (`E2 82 AC` each). -/
def euroBytes : Nat → List Nat
  | 0 => []
  | n + 1 => 226 :: 130 :: 172 :: euroBytes n

/-- The page is sorted by `uploaded_at` in non-increasing (descending)
order. -/
def sortedByUploadedAtDesc : List FileRecord → Bool
  | [] => true
  | a :: rest =>
    match rest with
    | [] => true
    | b :: _ => decide (b.uploaded_at ≤ a.uploaded_at) && sortedByUploadedAtDesc rest

/-- A record whose `mime_type` differs from the filter prefix only in ASCII
case. -/
def mixedCaseRecord : FileRecord :=
  { id := "id2", filename := "pic.png", mime_type := "IMAGE/png",
    file_path := "2025/01/02/u2.png", file_size := 10,
    extracted_text := none, ai_description := none, session_id := none,
    channel := none, uploaded_at := "2025-01-02T00:00:00+00:00", tags := none }

/-- An index holding only `mixedCaseRecord`. -/
def mixedCaseState : IndexState :=
  ⟨[(1, mixedCaseRecord)], [(1, entryOf mixedCaseRecord)], 2⟩

/-- The shadow entry keyed by a row's rowid. -/
def entryPairOf (p : Nat × FileRecord) : Nat × FtsEntry := (p.1, entryOf p.2)

/-- The invariant maintained by the triggers: rowids are unique and below the
next fresh rowid, and the shadow table is, up to order, exactly the image of
the base table under `entryPairOf`. -/
def ShadowInv (s : IndexState) : Prop :=
  (s.rows.map Prod.fst).Nodup ∧ (∀ p ∈ s.rows, p.1 < s.nextRowid) ∧
    s.fts.Perm (s.rows.map entryPairOf)

/-! ### Generic list helpers -/

/-- `takeWhile` keeps a list all of whose elements satisfy the predicate. -/
theorem takeWhile_of_all_pos {p : α → Bool} :
    ∀ {l : List α}, (∀ a ∈ l, p a = true) → l.takeWhile p = l
  | [], _ => rfl
  | a :: l, h => by
    rw [List.takeWhile_cons_of_pos (h a (by simp)),
      takeWhile_of_all_pos (fun x hx => h x (by simp [hx]))]

/-- `takeWhile` stops exactly at the first failing element. -/
theorem takeWhile_append_cons_of_neg {p : α → Bool} {y : α} (hy : p y = false) :
    ∀ {xs : List α} (ys : List α), (∀ a ∈ xs, p a = true) →
      (xs ++ y :: ys).takeWhile p = xs
  | [], ys, _ => by simp [List.takeWhile_cons, hy]
  | a :: xs, ys, h => by
    rw [List.cons_append, List.takeWhile_cons_of_pos (h a (by simp)),
      takeWhile_append_cons_of_neg hy ys (fun x hx => h x (by simp [hx]))]

/-- `dropWhile` is the identity when no element satisfies the predicate. -/
theorem dropWhile_of_all_neg {p : α → Bool} :
    ∀ {l : List α}, (∀ a ∈ l, p a = false) → l.dropWhile p = l
  | [], _ => rfl
  | a :: l, h => by simp [List.dropWhile_cons, h a (by simp)]

/-! ### C2 — MIME classification -/

/-- A filename without a `'.'` is its own extension under
`rsplit('.').next()`. -/
theorem extAfterLastDot_no_dot {l : List Char} (h : '.' ∉ l) :
    extAfterLastDot l = l := by
  unfold extAfterLastDot
  rw [takeWhile_of_all_pos, List.reverse_reverse]
  intro a ha
  rw [List.mem_reverse] at ha
  simp only [ne_eq, decide_eq_true_eq]
  intro e
  exact h (e ▸ ha)

/-- The extension computed for a filename with a final `'.'` segment is that
segment. -/
theorem extAfterLastDot_split {pre post : List Char} (h : '.' ∉ post) :
    extAfterLastDot (pre ++ '.' :: post) = post := by
  unfold extAfterLastDot
  rw [List.reverse_append, List.reverse_cons,
    show post.reverse ++ ['.'] ++ pre.reverse = post.reverse ++ '.' :: pre.reverse by simp,
    takeWhile_append_cons_of_neg (by simp) pre.reverse, List.reverse_reverse]
  intro a ha
  rw [List.mem_reverse] at ha
  simp only [ne_eq, decide_eq_true_eq]
  intro e
  exact h (e ▸ ha)

/-- An extension outside the table maps to `application/octet-stream`. -/
theorem extToMime_unknown {e : String} (h : e ∉ knownExts) :
    extToMime e = "application/octet-stream" := by
  simp only [knownExts, List.mem_cons, List.not_mem_nil, or_false, not_or] at h
  obtain ⟨n1, n2, n3, n4, n5, n6, n7, n8, n9, n10, n11, n12, n13, n14, n15,
    n16, n17, n18, n19, n20, n21, n22, n23, n24, n25⟩ := h
  unfold extToMime
  rw [if_neg n1, if_neg (not_or.mpr ⟨n2, n3⟩), if_neg n4, if_neg n5, if_neg n6,
    if_neg (not_or.mpr ⟨n7, n8⟩), if_neg n9, if_neg n10,
    if_neg (not_or.mpr ⟨n11, n12⟩), if_neg n13, if_neg n14, if_neg n15,
    if_neg n16, if_neg n17, if_neg n18, if_neg n19, if_neg n20, if_neg n21,
    if_neg n22, if_neg n23, if_neg n24, if_neg n25]

/-- C2 counterexample: the filename `"txt"` contains no `'.'`, yet
`guess_mime_type` classifies it as `text/plain`, not
`application/octet-stream` — `rsplit('.').next()` yields the whole filename,
not the empty string, when there is no dot. -/
theorem guess_mime_type_no_dot_cex :
    ('.' ∉ "txt".data) ∧ guess_mime_type "txt" = "text/plain" ∧
      guess_mime_type "txt" ≠ "application/octet-stream" := by
  decide

/-- C2 (amended): `guess_mime_type` takes as extension the lower-cased text
after the final `'.'`, or the whole lower-cased filename when it contains no
`'.'`; known extensions map through the fixed table and any other extension
yields `application/octet-stream`. It is a pure function of the filename
(hence total and deterministic). -/
theorem guess_mime_type_spec (filename : String) :
    ('.' ∉ filename.data →
      guess_mime_type filename = extToMime (String.mk (filename.data.map asciiLower))) ∧
    (∀ pre post : List Char, filename.data = pre ++ '.' :: post → '.' ∉ post →
      guess_mime_type filename = extToMime (String.mk (post.map asciiLower))) ∧
    (String.mk ((extAfterLastDot filename.data).map asciiLower) ∉ knownExts →
      guess_mime_type filename = "application/octet-stream") := by
  refine ⟨fun h => ?_, fun pre post hsplit h => ?_, fun h => ?_⟩
  · rw [guess_mime_type, extAfterLastDot_no_dot h]
  · rw [guess_mime_type, hsplit, extAfterLastDot_split h]
  · rw [guess_mime_type, extToMime_unknown h]

/-- C2 witness: the amended characterization applied at `"a.txt"`. -/
theorem guess_mime_type_spec_witness : guess_mime_type "a.txt" = "text/plain" := by
  have h := (guess_mime_type_spec "a.txt").2.1 ['a'] ['t', 'x', 't']
    (by decide) (by decide)
  rw [h]; decide

/-! ### C10 — get on a missing id -/

/-- C10: for an id not present in the index, `get` returns `Ok(None)` — an
explicit not-found value — and never an error; not-found is distinguishable
from the error constructor. -/
theorem get_missing_id (s : IndexState) (id : String)
    (h : ∀ p ∈ s.rows, p.2.id ≠ id) :
    FileIndex.get id s = Except.ok none ∧
      ∀ e : String, FileIndex.get id s ≠ Except.error e := by
  have hf : s.rows.find? (fun p => p.2.id == id) = none := by
    rw [List.find?_eq_none]
    intro p hp
    simpa using h p hp
  exact ⟨by simp [FileIndex.get, hf], fun e => by simp [FileIndex.get]⟩

/-- C10 witness: lookup in the freshly initialized (empty) index. -/
theorem get_missing_id_witness : FileIndex.get "absent" initState = Except.ok none :=
  (get_missing_id initState "absent" (by simp [initState])).1

/-! ### C5 — insert followed by get -/

/-- C5: when `insert(record)` succeeds (in particular the record's id was not
already present), `get(record.id)` returns the record, equal in every field. -/
theorem insert_get (record : FileRecord) (s s' : IndexState)
    (h : FileIndex.insert record s = some s') :
    FileIndex.get record.id s' = Except.ok (some record) := by
  unfold FileIndex.insert at h
  split at h
  · exact absurd h (by simp)
  · rename_i hc
    rw [Bool.or_eq_true, not_or] at hc
    obtain ⟨hdup, _⟩ := hc
    obtain rfl : _ = s' := Option.some_injective _ h
    unfold FileIndex.get FileIndex.fireInsertTrigger
    rw [List.find?_append]
    have hnone : s.rows.find? (fun p => p.2.id == record.id) = none := by
      rw [List.find?_eq_none]
      intro p hp hpid
      exact hdup (List.any_eq_true.mpr ⟨p, hp, hpid⟩)
    simp [hnone]

/-- C5 witness: inserting `sampleRecord` into the empty index and reading it
back. -/
theorem insert_get_witness :
    FileIndex.get sampleRecord.id sampleState = Except.ok (some sampleRecord) :=
  insert_get sampleRecord initState sampleState (by decide)

/-! ### C7 — update_content frame -/

/-- C7: after `update_content(id, t, d)` on an existing id, `get(id)` returns
a record whose `extracted_text` is `t` and `ai_description` is `d`, with
every other field unchanged from the previously stored record. -/
theorem update_content_get (s : IndexState) (id : String)
    (t d : Option String) (r : FileRecord)
    (h : FileIndex.get id s = Except.ok (some r)) :
    ∃ r', FileIndex.get id (FileIndex.update_content id t d s) = Except.ok (some r') ∧
      r'.extracted_text = t ∧ r'.ai_description = d ∧
      r'.id = r.id ∧ r'.filename = r.filename ∧ r'.mime_type = r.mime_type ∧
      r'.file_path = r.file_path ∧ r'.file_size = r.file_size ∧
      r'.session_id = r.session_id ∧ r'.channel = r.channel ∧
      r'.uploaded_at = r.uploaded_at ∧ r'.tags = r.tags := by
  refine ⟨FileIndex.updContent t d r, ?_, rfl, rfl, rfl, rfl, rfl, rfl, rfl,
    rfl, rfl, rfl, rfl⟩
  unfold FileIndex.get at h ⊢
  rw [Except.ok.injEq] at h
  obtain ⟨q, hq, hq2⟩ := Option.map_eq_some'.mp h
  have hpred := List.find?_some hq
  simp only [] at hpred
  unfold FileIndex.update_content
  rw [List.find?_map]
  have hcomp :
      ((fun p : Nat × FileRecord => p.2.id == id) ∘
        (fun p : Nat × FileRecord =>
          if p.2.id == id then (p.1, FileIndex.updContent t d p.2) else p)) =
      (fun p : Nat × FileRecord => p.2.id == id) := by
    funext p
    by_cases hp : (p.2.id == id) = true
    · have hp' : p.2.id = id := by simpa using hp
      simp [Function.comp, FileIndex.updContent, hp, hp']
    · simp [Function.comp, hp]
  rw [hcomp, hq]
  have hrid : r.id = id := by simpa [hq2] using hpred
  simp [hrid, hq2]

/-- C7 witness: updating the sample state at the stored id. -/
theorem update_content_get_witness :
    ∃ r', FileIndex.get "id1"
        (FileIndex.update_content "id1" (some "new text") (some "a pic") sampleState)
        = Except.ok (some r') ∧
      r'.extracted_text = some "new text" ∧ r'.ai_description = some "a pic" ∧
      r'.id = sampleRecord.id ∧ r'.filename = sampleRecord.filename ∧
      r'.mime_type = sampleRecord.mime_type ∧
      r'.file_path = sampleRecord.file_path ∧
      r'.file_size = sampleRecord.file_size ∧
      r'.session_id = sampleRecord.session_id ∧
      r'.channel = sampleRecord.channel ∧
      r'.uploaded_at = sampleRecord.uploaded_at ∧ r'.tags = sampleRecord.tags :=
  update_content_get sampleState "id1" (some "new text") (some "a pic")
    sampleRecord (by rfl)

/-! ### C8 — media description and base64 round-trip -/

/-- Decoding inverts the alphabet on all six-bit values. -/
theorem b64Index_b64Char : ∀ i < 64, b64Index (b64Char i) = some i := by decide

/-- No alphabet character is the padding character. -/
theorem b64Char_ne_pad : ∀ i < 64, b64Char i ≠ '=' := by decide

/-- Standard base64 decoding inverts standard base64 encoding on byte
sequences. -/
theorem base64_roundtrip :
    ∀ data : List Nat, (∀ b ∈ data, b < 256) →
      base64Decode (base64Encode data) = some data
  | [], _ => rfl
  | [b1], h => by
    have hb1 : b1 < 256 := h b1 (by simp)
    rw [show base64Encode [b1] =
        [b64Char (b1 / 4), b64Char ((b1 % 4) * 16), '=', '='] from rfl]
    unfold base64Decode
    rw [b64Index_b64Char (b1 / 4) (by omega), b64Index_b64Char ((b1 % 4) * 16) (by omega)]
    simp [Nat.mul_mod_left]; omega
  | [b1, b2], h => by
    have hb1 : b1 < 256 := h b1 (by simp)
    have hb2 : b2 < 256 := h b2 (by simp)
    rw [show base64Encode [b1, b2] =
        [b64Char (b1 / 4), b64Char ((b1 % 4) * 16 + b2 / 16), b64Char ((b2 % 16) * 4), '='] from rfl]
    unfold base64Decode
    rw [b64Index_b64Char (b1 / 4) (by omega),
      b64Index_b64Char ((b1 % 4) * 16 + b2 / 16) (by omega),
      b64Index_b64Char ((b2 % 16) * 4) (by omega)]
    simp [b64Char_ne_pad ((b2 % 16) * 4) (by omega), Nat.mul_mod_left]; omega
  | b1 :: b2 :: b3 :: rest, h => by
    have hb1 : b1 < 256 := h b1 (by simp)
    have hb2 : b2 < 256 := h b2 (by simp)
    have hb3 : b3 < 256 := h b3 (by simp)
    have ih := base64_roundtrip rest (fun b hb => h b (by simp [hb]))
    rw [show base64Encode (b1 :: b2 :: b3 :: rest) =
        b64Char (b1 / 4) :: b64Char ((b1 % 4) * 16 + b2 / 16) ::
          b64Char ((b2 % 16) * 4 + b3 / 64) :: b64Char (b3 % 64) ::
          base64Encode rest from rfl]
    unfold base64Decode
    rw [b64Index_b64Char (b1 / 4) (by omega),
      b64Index_b64Char ((b1 % 4) * 16 + b2 / 16) (by omega),
      b64Index_b64Char ((b2 % 16) * 4 + b3 / 64) (by omega),
      b64Index_b64Char (b3 % 64) (by omega), ih]
    simp [b64Char_ne_pad ((b2 % 16) * 4 + b3 / 64) (by omega),
      b64Char_ne_pad (b3 % 64) (by omega)]; omega

/-- C8: for every `image/*` input, `describe_media` returns a description
that contains the filename and the base64 encoding of the exact input bytes,
and decoding that base64 reproduces the input bytes (round-trip). -/
theorem describe_media_image (data : List Nat) (mime_type filename : String)
    (himg : strStartsWith "image/" mime_type = true)
    (hbytes : ∀ b ∈ data, b < 256) :
    ∃ desc, describe_media data mime_type filename = some desc ∧
      filename.data <:+: desc ∧ base64Encode data <:+: desc ∧
      base64Decode (base64Encode data) = some data := by
  refine ⟨"[Uploaded image: ".data ++ filename.data ++ "]\n[IMAGE:data:".data ++
      mime_type.data ++ ";base64,".data ++ base64Encode data ++ "]".data,
    by rw [describe_media, if_pos himg], ?_, ?_, base64_roundtrip data hbytes⟩
  · exact ⟨"[Uploaded image: ".data,
      "]\n[IMAGE:data:".data ++ mime_type.data ++ ";base64,".data ++
        base64Encode data ++ "]".data, by simp⟩
  · exact ⟨"[Uploaded image: ".data ++ filename.data ++ "]\n[IMAGE:data:".data ++
      mime_type.data ++ ";base64,".data, "]".data, by simp⟩

/-- C8 witness: a two-byte image payload. -/
theorem describe_media_image_witness :
    ∃ desc, describe_media [0, 255] "image/png" "pic.png" = some desc ∧
      "pic.png".data <:+: desc ∧ base64Encode [0, 255] <:+: desc ∧
      base64Decode (base64Encode [0, 255]) = some [0, 255] :=
  describe_media_image [0, 255] "image/png" "pic.png" (by decide) (by decide)

/-! ### Evaluation lemmas for the lossy decoder -/

/-- Decoding an empty byte sequence. -/
theorem utf8Lossy_nil : utf8Lossy [] = [] := by simp [utf8Lossy]

/-- An ASCII byte decodes to its own character, independently of the rest. -/
theorem utf8Lossy_ascii_cons {b : Nat} (hb : b < 128) (rest : List Nat) :
    utf8Lossy (b :: rest) = Char.ofNat b :: utf8Lossy rest := by
  match rest with
  | [] => simp [utf8Lossy, hb]
  | [b1] => simp [utf8Lossy, hb]
  | [b1, b2] => simp [utf8Lossy, hb]
  | b1 :: b2 :: b3 :: r => simp [utf8Lossy, hb]

/-- A complete `E2 82 AC` sequence decodes to `'€'`, independently of the
rest. -/
theorem utf8Lossy_euro_cons (rest : List Nat) :
    utf8Lossy (226 :: 130 :: 172 :: rest) = '€' :: utf8Lossy rest := by
  have h3 : utf8Char3 226 130 172 = '€' := by decide
  match rest with
  | [] => simp [utf8Lossy, cont3ok, isCont, h3]
  | b3 :: r => simp [utf8Lossy, cont3ok, isCont, h3]

/-- Decoding a run of `'a'` bytes. -/
theorem utf8Lossy_replicate_a :
    ∀ n, utf8Lossy (List.replicate n 97) = List.replicate n 'a'
  | 0 => by simp [utf8Lossy]
  | n + 1 => by
    rw [List.replicate_succ, utf8Lossy_ascii_cons (by omega),
      utf8Lossy_replicate_a n, List.replicate_succ]

/-- Decoding a run of euro-sign byte triples. -/
theorem utf8Lossy_euroBytes :
    ∀ n, utf8Lossy (euroBytes n) = List.replicate n '€'
  | 0 => by simp [euroBytes, utf8Lossy]
  | n + 1 => by
    rw [euroBytes, utf8Lossy_euro_cons, utf8Lossy_euroBytes n, List.replicate_succ]

/-! ### Byte-length, trim, and slice lemmas -/

/-- Byte length of a replicated character. -/
theorem utf8ByteLen_replicate (c : Char) :
    ∀ n, utf8ByteLen (List.replicate n c) = n * c.utf8Size
  | 0 => by simp [utf8ByteLen]
  | n + 1 => by
    rw [List.replicate_succ, utf8ByteLen, utf8ByteLen_replicate c n]
    ring

/-- Trimming is the identity on text containing no whitespace at all. -/
theorem rustTrim_of_all_not_ws {t : List Char}
    (h : ∀ c ∈ t, isRustWhitespace c = false) : rustTrim t = t := by
  unfold rustTrim
  rw [dropWhile_of_all_neg h, dropWhile_of_all_neg (fun c hc => h c (by
    rwa [List.mem_reverse] at hc)), List.reverse_reverse]

/-- Trimming a replicated non-whitespace character. -/
theorem rustTrim_replicate {c : Char} (hc : isRustWhitespace c = false) (n : Nat) :
    rustTrim (List.replicate n c) = List.replicate n c :=
  rustTrim_of_all_not_ws (fun x hx => by rw [List.eq_of_mem_replicate hx]; exact hc)

/-- A byte slice at a valid boundary takes exactly the first `k` bytes. -/
theorem byteSlice_eq_byteTake :
    ∀ (k : Nat) (t : List Char), isByteBoundary k t = true →
      byteSlice k t = some (byteTake k t)
  | 0, [], _ => rfl
  | 0, c :: cs, _ => by
    have : ¬ c.utf8Size ≤ 0 := by have := c.utf8Size_pos; omega
    simp [byteSlice, byteTake, this]
  | k + 1, [], h => by simp [isByteBoundary] at h
  | k + 1, c :: cs, h => by
    rw [isByteBoundary] at h
    by_cases hlt : k + 1 < c.utf8Size
    · rw [if_pos hlt] at h; exact absurd h (by simp)
    · rw [if_neg hlt] at h
      rw [byteSlice, if_neg hlt, byteSlice_eq_byteTake (k + 1 - c.utf8Size) cs h,
        byteTake, if_pos (by omega)]
      rfl

/-- Slicing a run of three-byte characters at a byte index that is not a
multiple of three panics. -/
theorem byteSlice_replicate_euro_panics :
    ∀ (n k : Nat), k % 3 ≠ 0 → k < 3 * n →
      byteSlice k (List.replicate n '€') = none
  | 0, k, hk, hlt => by omega
  | n + 1, 0, hk, hlt => by omega
  | n + 1, k + 1, hk, hlt => by
    have hsz : ('€' : Char).utf8Size = 3 := by decide
    rw [List.replicate_succ, byteSlice]
    by_cases h3 : k + 1 < 3
    · rw [if_pos (by omega : k + 1 < ('€' : Char).utf8Size)]
    · rw [if_neg (by omega : ¬ k + 1 < ('€' : Char).utf8Size), hsz,
        byteSlice_replicate_euro_panics n (k + 1 - 3) (by omega) (by omega)]
      rfl

/-! ### C1 — extraction for supported text MIME types -/

/-- `byteTake k` never returns more than `k` characters. -/
theorem byteTake_length_le : ∀ (k : Nat) (l : List Char), (byteTake k l).length ≤ k
  | _, [] => by simp [byteTake]
  | k, c :: cs => by
    rw [byteTake]
    split
    · have hsz := c.utf8Size_pos
      have := byteTake_length_le (k - c.utf8Size) cs
      simp only [List.length_cons]
      omega
    · simp

/-- C1 counterexample: a `text/plain` input of 100,500 `'a'` bytes decodes to
text longer than 100,000 bytes, yet `extract_text` returns it verbatim — the
truncation cap in the code is `MAX_TEXT_LEN = 102,400`, not 100,000. -/
theorem extract_text_cap_cex :
    "text/plain" ∈ textMimes ∧
    utf8ByteLen (utf8Lossy (List.replicate 100500 97)) > 100000 ∧
    extract_text (List.replicate 100500 97) "text/plain" "notes.txt"
      = some (some (List.replicate 100500 'a')) ∧
    extract_text (List.replicate 100500 97) "text/plain" "notes.txt"
      ≠ some (some (byteTake 100000 (utf8Lossy (List.replicate 100500 97)))) := by
  have hdec : utf8Lossy (List.replicate 100500 97) = List.replicate 100500 'a' :=
    utf8Lossy_replicate_a 100500
  have hlen : utf8ByteLen (List.replicate 100500 'a') = 100500 := by
    rewrite [utf8ByteLen_replicate]
    decide
  have hne : (List.replicate 100500 'a' : List Char) ≠ [] := by
    intro h
    have hl := congrArg List.length h
    rewrite [List.length_replicate, List.length_nil] at hl
    exact absurd hl (by decide)
  have htrimne : ¬ rustTrim (List.replicate 100500 'a') = [] := by
    rewrite [rustTrim_replicate (by decide) 100500]
    exact hne
  have hext : extract_text (List.replicate 100500 97) "text/plain" "notes.txt"
      = some (some (List.replicate 100500 'a')) := by
    rewrite [extract_text, if_pos (show "text/plain" ∈ textMimes by decide), hdec,
      truncate_text, if_neg htrimne,
      if_neg (show ¬ utf8ByteLen (List.replicate 100500 'a') > MAX_TEXT_LEN by
        rewrite [hlen]; decide)]
    exact rfl
  refine ⟨by decide, ?_, hext, ?_⟩
  · rewrite [hdec, hlen]
    decide
  · rewrite [hext, hdec]
    intro hcontra
    have heq := Option.some.inj (Option.some.inj hcontra)
    have hlen2 := congrArg List.length heq
    rewrite [List.length_replicate] at hlen2
    have hbt := byteTake_length_le 100000 (List.replicate 100500 'a')
    omega

/-- C1 (amended): for every supported text MIME type, when the lossily
decoded text is not blank, `extract_text` returns it verbatim if its byte
length is at most 102,400 (`MAX_TEXT_LEN`), and returns exactly its first
102,400 bytes if it is longer and byte index 102,400 falls on a character
boundary (otherwise the byte slice panics — see the C4 analysis). -/
theorem extract_text_text_mimes (data : List Nat) (mime_type filename : String)
    (hm : mime_type ∈ textMimes) (hnb : rustTrim (utf8Lossy data) ≠ []) :
    (utf8ByteLen (utf8Lossy data) ≤ MAX_TEXT_LEN →
      extract_text data mime_type filename = some (some (utf8Lossy data))) ∧
    (MAX_TEXT_LEN < utf8ByteLen (utf8Lossy data) →
      isByteBoundary MAX_TEXT_LEN (utf8Lossy data) = true →
      extract_text data mime_type filename
        = some (some (byteTake MAX_TEXT_LEN (utf8Lossy data)))) := by
  constructor
  · intro hle
    rw [extract_text, if_pos hm, truncate_text, if_neg hnb, if_neg (by omega)]
  · intro hgt hbd
    rw [extract_text, if_pos hm, truncate_text, if_neg hnb, if_pos (by omega),
      byteSlice_eq_byteTake _ _ hbd]
    rfl

/-- C1 witness: the amended theorem applied to the two-byte `text/markdown`
input `"ab"`. -/
theorem extract_text_text_mimes_witness :
    extract_text [97, 98] "text/markdown" "f.md" = some (some ['a', 'b']) := by
  have hab : utf8Lossy [97, 98] = ['a', 'b'] := by simp [utf8Lossy]
  have h := (extract_text_text_mimes [97, 98] "text/markdown" "f.md"
    (by decide) (by rw [hab]; decide)).1 (by rw [hab]; decide)
  rwa [hab] at h

/-! ### C9 — blank decoded text -/

/-- C9 counterexample: the single whitespace byte `0x20` under MIME type
`application/pdf` decodes to the blank text `" "`, yet `extract_text` returns
the non-absent PDF placeholder note, not the absent value. -/
theorem extract_text_blank_pdf_cex :
    rustTrim (utf8Lossy [32]) = [] ∧
    extract_text [32] "application/pdf" "f.pdf" = some (some pdfPlaceholder) ∧
    (some (some pdfPlaceholder) : Option (Option (List Char))) ≠ some none := by
  refine ⟨?_, ?_, by simp⟩
  · have h32 : utf8Lossy [32] = [' '] := by simp [utf8Lossy]
    rw [h32]
    decide
  · rw [extract_text, if_neg (by decide), if_pos rfl]
    rfl

/-- C9 (amended): for every input whose MIME type is not `application/pdf`
and whose decoded text is empty or whitespace-only, `extract_text` returns
the absent value (`Ok(None)`), never a blank string; the `application/pdf`
branch instead returns a fixed non-blank placeholder when the PDF feature is
absent. -/
theorem extract_text_blank (data : List Nat) (mime_type filename : String)
    (hpdf : mime_type ≠ "application/pdf")
    (hblank : rustTrim (utf8Lossy data) = []) :
    extract_text data mime_type filename = some none := by
  rw [extract_text]
  by_cases hm : mime_type ∈ textMimes
  · rw [if_pos hm, truncate_text, if_pos hblank]
  · rw [if_neg hm, if_neg hpdf]
    by_cases hmedia : (strStartsWith "image/" mime_type ||
        strStartsWith "audio/" mime_type || strStartsWith "video/" mime_type) = true
    · rw [if_pos hmedia]
    · rw [if_neg hmedia, from_utf8]
      by_cases hv : utf8Valid data = true
      · rw [if_pos hv]
        show (if !(rustTrim (utf8Lossy data)).isEmpty then truncate_text (utf8Lossy data)
          else some none) = some none
        simp [hblank]
      · rw [if_neg hv]

/-- C9 witness: the empty `text/plain` input. -/
theorem extract_text_blank_witness :
    extract_text [] "text/plain" "empty.txt" = some none :=
  extract_text_blank [] "text/plain" "empty.txt" (by decide)
    (by rw [utf8Lossy_nil]; decide)

/-! ### C4 — totality of extract_text -/

/-- C4 (code bug): `extract_text` is not total. On a `text/plain` input of
34,134 euro signs (102,402 bytes of well-formed UTF-8), the decoded text
exceeds `MAX_TEXT_LEN` and byte index 102,400 falls inside a three-byte
character, so the byte slice `text[..MAX_TEXT_LEN]` in `truncate_text` is not
on a character boundary and the code panics instead of returning — the model
yields the panic value `none`. -/
theorem extract_text_panics :
    extract_text (euroBytes 34134) "text/plain" "big.txt" = none := by
  have hdec : utf8Lossy (euroBytes 34134) = List.replicate 34134 '€' :=
    utf8Lossy_euroBytes 34134
  have hlen : utf8ByteLen (List.replicate 34134 '€') = 102402 := by
    rewrite [utf8ByteLen_replicate]
    decide
  have htrimne : ¬ rustTrim (List.replicate 34134 '€') = [] := by
    rewrite [rustTrim_replicate (by decide) 34134]
    intro h
    have hl := congrArg List.length h
    rewrite [List.length_replicate, List.length_nil] at hl
    exact absurd hl (by decide)
  rewrite [extract_text, if_pos (show "text/plain" ∈ textMimes by decide), hdec,
    truncate_text, if_neg htrimne,
    if_pos (show utf8ByteLen (List.replicate 34134 '€') > MAX_TEXT_LEN by
      rewrite [hlen]; decide),
    byteSlice_replicate_euro_panics 34134 MAX_TEXT_LEN (by decide) (by decide)]
  exact rfl

/-! ### C6 — filtered, ordered pagination -/

/-- A pairwise-descending list passes the Boolean sortedness check. -/
theorem sortedBool_of_pairwise :
    ∀ {l : List FileRecord},
      l.Pairwise (fun a b => decide (b.uploaded_at ≤ a.uploaded_at) = true) →
      sortedByUploadedAtDesc l = true
  | [], _ => rfl
  | [_], _ => rfl
  | a :: b :: rest, h => by
    rw [List.pairwise_cons] at h
    obtain ⟨hab, htail⟩ := h
    have hb := hab b (by simp)
    have ih := sortedBool_of_pairwise htail
    show (decide (b.uploaded_at ≤ a.uploaded_at) && sortedByUploadedAtDesc (b :: rest)) = true
    rw [hb, ih]
    rfl

/-- C6 (amended): `list` returns a page sorted by `uploaded_at` descending
containing only records that pass both supplied filters — exact `session_id`
match and the SQL `LIKE` pattern `prefix%` on `mime_type` (ASCII-case-
insensitive, with `%`/`_` in the prefix acting as wildcards) — and its
`total` equals the number of records matching the filters, independently of
`offset` and `limit`. -/
theorem list_spec (offset limit : Nat) (sessionFilter mimeFilter : Option String)
    (s : IndexState) :
    sortedByUploadedAtDesc (FileIndex.list offset limit sessionFilter mimeFilter s).files = true ∧
    (FileIndex.list offset limit sessionFilter mimeFilter s).files.all
      (FileIndex.matchesFilters sessionFilter mimeFilter) = true ∧
    (FileIndex.list offset limit sessionFilter mimeFilter s).total =
      ((s.rows.map Prod.snd).filter (FileIndex.matchesFilters sessionFilter mimeFilter)).length := by
  simp only [FileIndex.list]
  refine ⟨?_, ?_, trivial⟩
  · apply sortedBool_of_pairwise
    refine List.Pairwise.sublist ?_ (List.sorted_mergeSort ?_ ?_
      ((s.rows.map Prod.snd).filter (FileIndex.matchesFilters sessionFilter mimeFilter)))
    · exact (List.take_sublist _ _).trans (List.drop_sublist _ _)
    · intro a b c hab hbc
      simp only [decide_eq_true_eq] at *
      exact le_trans hbc hab
    · intro a b
      simp only [Bool.or_eq_true, decide_eq_true_eq]
      exact le_total _ _
  · rw [List.all_eq_true]
    intro x hx
    have hx2 := ((List.take_sublist _ _).trans (List.drop_sublist _ _)).subset hx
    have hx3 := List.mem_mergeSort.mp hx2
    exact List.of_mem_filter hx3

/-- C6 counterexample: with the filter `mime_prefix = "image/"`, `list`
returns the record whose `mime_type` is `"IMAGE/png"`, although `"image/"`
is not a prefix of it — the SQL `LIKE` comparison is ASCII-case-insensitive,
so the returned page is not restricted to literal prefix matches. -/
theorem list_mime_filter_cex :
    (FileIndex.list 0 10 none (some "image/") mixedCaseState).files = [mixedCaseRecord] ∧
    "image/".data.isPrefixOf mixedCaseRecord.mime_type.data = false := by
  refine ⟨?_, by decide⟩
  simp only [FileIndex.list]
  have hfil : (mixedCaseState.rows.map Prod.snd).filter
      (FileIndex.matchesFilters none (some "image/")) = [mixedCaseRecord] := by decide
  rw [hfil, List.perm_singleton.mp (List.mergeSort_perm _ _)]
  rfl

/-! ### C3 — shadow-index synchronization -/

/-- Folding the delete trigger over the affected rows filters out exactly
their rowids. -/
theorem foldl_fireDeleteTrigger :
    ∀ (A : List (Nat × FileRecord)) (l : List (Nat × FtsEntry)),
      A.foldl (fun acc p => FileIndex.fireDeleteTrigger p.1 acc) l
        = l.filter (fun e => A.all (fun p => e.1 != p.1))
  | [], l => by simp
  | a :: A, l => by
    rw [List.foldl_cons, foldl_fireDeleteTrigger A _]
    unfold FileIndex.fireDeleteTrigger
    rw [List.filter_filter]
    apply List.filter_congr
    intro e _
    rw [List.all_cons]
    exact Bool.and_comm _ _

/-- Folding the update trigger (delete old entry, insert new entry) over
affected rows with distinct rowids filters out their old entries and appends
the new ones. -/
theorem foldl_fireUpdateTrigger (g : Nat × FileRecord → FtsEntry) :
    ∀ (A : List (Nat × FileRecord)), (A.map Prod.fst).Nodup →
      ∀ (l : List (Nat × FtsEntry)),
      A.foldl (fun acc p =>
          FileIndex.fireInsertTrigger p.1 (g p) (FileIndex.fireDeleteTrigger p.1 acc)) l
        = l.filter (fun e => A.all (fun p => e.1 != p.1)) ++ A.map (fun p => (p.1, g p))
  | [], _, l => by simp
  | a :: A, hnd, l => by
    rw [List.map_cons, List.nodup_cons] at hnd
    obtain ⟨ha, hA⟩ := hnd
    rw [List.foldl_cons, foldl_fireUpdateTrigger g A hA _]
    unfold FileIndex.fireInsertTrigger FileIndex.fireDeleteTrigger
    have hall : A.all (fun p => a.1 != p.1) = true := by
      rw [List.all_eq_true]
      intro p hp
      simp only [bne_iff_ne, ne_eq]
      intro he
      exact ha (he ▸ List.mem_map_of_mem Prod.fst hp)
    have hsingle : [(a.1, g a)].filter (fun e => A.all (fun p => e.1 != p.1))
        = [(a.1, g a)] := by
      simp only [List.filter_cons, List.filter_nil]
      simp [hall]
    rw [List.filter_append, hsingle, List.filter_filter, List.append_assoc,
      List.singleton_append]
    congr 1
    apply List.filter_congr
    intro e _
    rw [List.all_cons]
    exact Bool.and_comm _ _

/-- With unique rowids, filtering the shadow image of the base table by "not
an affected rowid" is the shadow image of the unaffected rows. -/
theorem filter_shadow_of_nodup {rows : List (Nat × FileRecord)}
    (hnd : (rows.map Prod.fst).Nodup) (id : String) :
    (rows.map entryPairOf).filter
        (fun e => (rows.filter (fun p => p.2.id == id)).all (fun p => e.1 != p.1))
      = (rows.filter (fun p => p.2.id != id)).map entryPairOf := by
  rw [List.filter_map]
  congr 1
  apply List.filter_congr
  intro p hp
  show (rows.filter (fun q => q.2.id == id)).all (fun q => (entryPairOf p).1 != q.1)
      = (p.2.id != id)
  by_cases hid : p.2.id = id
  · have hpA : p ∈ rows.filter (fun q => q.2.id == id) :=
      List.mem_filter.mpr ⟨hp, by simp [hid]⟩
    have hnall : ¬ ((rows.filter (fun q => q.2.id == id)).all
        (fun q => (entryPairOf p).1 != q.1) = true) := by
      intro hall
      have := List.all_eq_true.mp hall p hpA
      simp [entryPairOf] at this
    rw [Bool.not_eq_true] at hnall
    rw [hnall]
    simp [hid]
  · have hall : (rows.filter (fun q => q.2.id == id)).all
        (fun q => (entryPairOf p).1 != q.1) = true := by
      rw [List.all_eq_true]
      intro q hq
      rw [List.mem_filter] at hq
      obtain ⟨hqr, hqid⟩ := hq
      simp only [entryPairOf, bne_iff_ne, ne_eq]
      intro he
      have hpq := List.inj_on_of_nodup_map hnd hp hqr he
      rw [hpq] at hid
      exact hid (by simpa using hqid)
    rw [hall]
    simp [hid]

/-- `insert` preserves the shadow invariant (both on success and on the
failed-statement no-op). -/
theorem shadowInv_insert (r : FileRecord) (s : IndexState) (h : ShadowInv s) :
    ShadowInv ((FileIndex.insert r s).getD s) := by
  obtain ⟨hnd, hbound, hperm⟩ := h
  unfold FileIndex.insert
  split
  · exact ⟨hnd, hbound, hperm⟩
  · refine ⟨?_, ?_, ?_⟩
    · show ((s.rows ++ [(s.nextRowid, r)]).map Prod.fst).Nodup
      rw [List.map_append, List.nodup_append]
      refine ⟨hnd, by simp, ?_⟩
      intro a ha hb
      simp only [List.map_cons, List.map_nil, List.mem_singleton] at hb
      rw [List.mem_map] at ha
      obtain ⟨p, hp, rfl⟩ := ha
      exact absurd hb (Nat.ne_of_lt (hbound p hp))
    · intro p hp
      show p.1 < s.nextRowid + 1
      rcases List.mem_append.mp hp with h1 | h2
      · exact Nat.lt_succ_of_lt (hbound p h1)
      · rw [List.mem_singleton] at h2
        rw [h2]
        exact Nat.lt_succ_self _
    · show (FileIndex.fireInsertTrigger s.nextRowid (entryOf r) s.fts).Perm
        ((s.rows ++ [(s.nextRowid, r)]).map entryPairOf)
      unfold FileIndex.fireInsertTrigger
      rw [List.map_append]
      exact hperm.append_right _

/-- The base-table `DELETE` with its `ftms_ad` trigger preserves the shadow
invariant. -/
theorem shadowInv_delete (id : String) (s : IndexState) (h : ShadowInv s) :
    ShadowInv (FileIndex.delete id s) := by
  obtain ⟨hnd, hbound, hperm⟩ := h
  unfold FileIndex.delete
  refine ⟨?_, ?_, ?_⟩
  · exact List.Nodup.sublist ((List.filter_sublist _).map _) hnd
  · intro p hp
    exact hbound p (List.mem_of_mem_filter hp)
  · dsimp only
    rw [foldl_fireDeleteTrigger]
    have h1 := hperm.filter
      (fun e => (s.rows.filter (fun p => p.2.id == id)).all (fun p => e.1 != p.1))
    rw [filter_shadow_of_nodup hnd id] at h1
    exact h1

/-- `update_content` with its `ftms_au` trigger preserves the shadow
invariant. -/
theorem shadowInv_update (id : String) (t d : Option String) (s : IndexState)
    (h : ShadowInv s) : ShadowInv (FileIndex.update_content id t d s) := by
  obtain ⟨hnd, hbound, hperm⟩ := h
  unfold FileIndex.update_content
  dsimp only
  have hfst : (s.rows.map (fun p =>
      if p.2.id == id then (p.1, FileIndex.updContent t d p.2) else p)).map Prod.fst
      = s.rows.map Prod.fst := by
    rw [List.map_map]
    apply List.map_congr_left
    intro p _
    by_cases hp : p.2.id = id <;> simp [hp]
  refine ⟨?_, ?_, ?_⟩
  · rw [hfst]
    exact hnd
  · intro p hp
    rw [List.mem_map] at hp
    obtain ⟨q, hq, rfl⟩ := hp
    have hqb := hbound q hq
    by_cases hqid : q.2.id = id <;> simp [hqid, hqb]
  · have hAnd : ((s.rows.filter (fun p => p.2.id == id)).map Prod.fst).Nodup :=
      List.Nodup.sublist ((List.filter_sublist _).map _) hnd
    rw [foldl_fireUpdateTrigger _ _ hAnd]
    have hleft : (s.fts.filter
        (fun e => (s.rows.filter (fun p => p.2.id == id)).all (fun p => e.1 != p.1))).Perm
        ((s.rows.filter (fun p => p.2.id != id)).map entryPairOf) := by
      have h1 := hperm.filter
        (fun e => (s.rows.filter (fun p => p.2.id == id)).all (fun p => e.1 != p.1))
      rw [filter_shadow_of_nodup hnd id] at h1
      exact h1
    have hnotnot : s.rows.filter (fun p => !(p.2.id != id))
        = s.rows.filter (fun p => p.2.id == id) := by
      apply List.filter_congr
      intro p _
      simp [bne]
    have hsplit : ((s.rows.filter (fun p => p.2.id != id))
        ++ (s.rows.filter (fun p => p.2.id == id))).Perm s.rows := by
      rw [← hnotnot]
      exact List.filter_append_perm _ _
    have hright : ((s.rows.map (fun p =>
        if p.2.id == id then (p.1, FileIndex.updContent t d p.2) else p)).map entryPairOf).Perm
        ((s.rows.filter (fun p => p.2.id != id)).map entryPairOf
          ++ (s.rows.filter (fun p => p.2.id == id)).map
            (fun p => (p.1, entryOf (FileIndex.updContent t d p.2)))) := by
      rw [List.map_map]
      refine ((hsplit.symm).map (entryPairOf ∘ (fun p =>
        if p.2.id == id then (p.1, FileIndex.updContent t d p.2) else p))).trans ?_
      rw [List.map_append]
      have e1 : (s.rows.filter (fun p => p.2.id != id)).map (entryPairOf ∘ (fun p =>
          if p.2.id == id then (p.1, FileIndex.updContent t d p.2) else p))
          = (s.rows.filter (fun p => p.2.id != id)).map entryPairOf := by
        apply List.map_congr_left
        intro p hp
        have hne := List.of_mem_filter hp
        have hfalse : (p.2.id == id) = false := by
          simpa [bne] using hne
        simp [Function.comp, hfalse]
      have e2 : (s.rows.filter (fun p => p.2.id == id)).map (entryPairOf ∘ (fun p =>
          if p.2.id == id then (p.1, FileIndex.updContent t d p.2) else p))
          = (s.rows.filter (fun p => p.2.id == id)).map
            (fun p => (p.1, entryOf (FileIndex.updContent t d p.2))) := by
        apply List.map_congr_left
        intro p hp
        have heq := List.of_mem_filter hp
        simp [Function.comp, heq, entryPairOf]
      rw [e1, e2]
    exact (hleft.append_right _).trans hright.symm

/-- Every single operation preserves the shadow invariant. -/
theorem shadowInv_applyOp (s : IndexState) (op : DbOp) (h : ShadowInv s) :
    ShadowInv (applyOp s op) := by
  cases op with
  | ins r => exact shadowInv_insert r s h
  | upd id t d => exact shadowInv_update id t d s h
  | del id => exact shadowInv_delete id s h

/-- The shadow invariant holds in every reachable state. -/
theorem shadowInv_runOps (ops : List DbOp) : ShadowInv (runOps ops) := by
  suffices h : ∀ s : IndexState, ShadowInv s → ShadowInv (ops.foldl applyOp s) from
    h initState ⟨by simp [initState], by simp [initState], by simp [initState]⟩
  induction ops with
  | nil => exact fun s hs => hs
  | cons op ops ih => exact fun s hs => ih _ (shadowInv_applyOp s op hs)

/-- C3: in every state reachable by any sequence of insert, update_content
and delete operations from the fresh database, the FTS5 shadow table holds,
up to order, exactly one entry per base-table row (the row's four indexed
columns keyed by its rowid) and no entry for any deleted row. The `ftms_au`
trigger realizes an update as delete-of-old plus insert-of-new shadow entry —
never an in-place mutation — which is what keeps this exact correspondence. -/
theorem shadow_index_sync (ops : List DbOp) :
    (runOps ops).fts.Perm ((runOps ops).rows.map entryPairOf) :=
  (shadowInv_runOps ops).2.2

end Ftms
